import Mathlib

/-!
Verification of the MultiNLI dataset adapter
(`tensorflow_datasets/text/multi_nli.py`).

A decoded text line is modelled as a `List Char`.  The generator
`MultiNLI._generate_examples` is modelled by `iterate_examples`, which
returns the ordered list of `(row_index, Example)` pairs emitted before
any fault, together with a flag recording whether a malformed-row fault
(`IndexError` in the source) stopped the iteration.
-/

namespace MultiNLI

/-- One decoded text line, as the list of its characters. -/
abbrev Line := List Char

/-- The characters stripped by Python bytes `.strip()` with no argument:
space, tab, newline, carriage return, vertical tab, form feed. -/
def isPyWS (c : Char) : Bool :=
  c = ' ' || c = '\t' || c = '\n' || c = '\r' || c = '\x0b' || c = '\x0c'

/-- Python `line.strip()`: removes leading and trailing whitespace. -/
def pyStrip (l : Line) : Line :=
  (l.dropWhile isPyWS).rdropWhile isPyWS

/-- Python `line.split("\t")`: split on every tab character; the result
always has at least one (possibly empty) field. -/
def splitTab : Line → List Line
  | [] => [[]]
  | c :: cs =>
    if c = '\t' then [] :: splitTab cs
    else
      match splitTab cs with
      | [] => [[c]]
      | f :: fs => (c :: f) :: fs

/-- The record yielded per valid row: `{"premise": split_line[5],
"hypothesis": split_line[6], "label": split_line[0]}`. -/
structure Example where
  premise : Line
  hypothesis : Line
  label : Line
deriving DecidableEq

/-- Outcome of processing one enumerated line of the file. -/
inductive RowResult where
  | emit (ex : Example)
  | skip
  | fault
deriving DecidableEq

/-- The body of the `for idx, line in enumerate(...)` loop of
`MultiNLI._generate_examples`: skip the header row, strip and split the
line, skip rows whose first field is the consensus sentinel `"-"`, and
otherwise yield the example built from fields 5, 6 and 0.  Accessing
field 5 or 6 of a row with fewer than 7 fields raises `IndexError` in
the source, modelled by `RowResult.fault`. -/
def processLine (idx : Nat) (line : Line) : RowResult :=
  if idx = 0 then .skip
  else
    let fields := splitTab (pyStrip line)
    if fields.getD 0 [] = ['-'] then .skip
    else if 7 ≤ fields.length then
      .emit ⟨fields.getD 5 [], fields.getD 6 [], fields.getD 0 []⟩
    else .fault

/-- Run the generator loop from line index `idx` over the remaining
lines.  Returns the pairs yielded before any fault and whether a fault
occurred; a fault ends the iteration with nothing further emitted. -/
def runRows : Nat → List Line → List (Nat × Example) × Bool
  | _, [] => ([], false)
  | idx, l :: ls =>
    match processLine idx l with
    | .skip => runRows (idx + 1) ls
    | .fault => ([], true)
    | .emit ex =>
      let r := runRows (idx + 1) ls
      ((idx, ex) :: r.1, r.2)

/-- `MultiNLI._generate_examples`, as a function of the decoded lines of
the file. -/
def iterate_examples (lines : List Line) : List (Nat × Example) × Bool :=
  runRows 0 lines

/-- Python `sep.join(parts)`. -/
def pyJoin (sep : Line) : List Line → Line
  | [] => []
  | [x] => x
  | x :: xs => x ++ sep ++ pyJoin sep xs

/-- `MultiNLI._vocab_text_gen`: for every pair yielded by
`_generate_examples`, yield `" ".join([ex["premise"], ex["hypothesis"]])`. -/
def vocab_text_gen (lines : List Line) : List Line :=
  (iterate_examples lines).1.map fun p => pyJoin [' '] [p.2.premise, p.2.hypothesis]

/-- Python `os.path.join(a, b)` on POSIX paths. -/
def pathJoin (a b : Line) : Line :=
  if b.head? = some '/' then b
  else if a = [] ∨ a.getLast? = some '/' then a ++ b
  else a ++ '/' :: b

/-- A named split together with the file it is parsed from. -/
structure SplitSpec where
  name : Line
  file_path : Line
deriving DecidableEq

/-- The path construction of `MultiNLI._split_generators`: from the
extracted download root, build `multinli_1.0/` and the three split
files, and return the split generators in order. -/
def resolve_splits (downloaded_dir : Line) : List SplitSpec :=
  let mnli_path := pathJoin downloaded_dir "multinli_1.0".toList
  let train_path := pathJoin mnli_path "multinli_1.0_train.txt".toList
  let matched_validation_path := pathJoin mnli_path "multinli_1.0_dev_matched.txt".toList
  let mismatched_validation_path := pathJoin mnli_path "multinli_1.0_dev_mismatched.txt".toList
  [⟨"train".toList, train_path⟩,
   ⟨"validation_matched".toList, matched_validation_path⟩,
   ⟨"validation_mismatched".toList, mismatched_validation_path⟩]

/-- The three class names of the `ClassLabel` feature declared in
`MultiNLI._info`; the downstream feature-encoding layer rejects any
other label text. -/
def validLabel (l : Line) : Bool :=
  l = "entailment".toList || l = "neutral".toList || l = "contradiction".toList

/-- Modelled from the spec words "strips trailing whitespace": removes
whitespace from the tail of the line only, leaving leading characters
in place.  For comparison with the source's `pyStrip`, which is Python
`.strip()` and removes whitespace from both ends. -/
def trimTrailingOnly (l : Line) : Line :=
  l.rdropWhile isPyWS

/-- The loop body as the spec words it, with the trailing-only strip. -/
def processLineTrim (idx : Nat) (line : Line) : RowResult :=
  if idx = 0 then .skip
  else
    let fields := splitTab (trimTrailingOnly line)
    if fields.getD 0 [] = ['-'] then .skip
    else if 7 ≤ fields.length then
      .emit ⟨fields.getD 5 [], fields.getD 6 [], fields.getD 0 []⟩
    else .fault

/-- The generator loop under the trailing-only strip. -/
def runRowsTrim : Nat → List Line → List (Nat × Example) × Bool
  | _, [] => ([], false)
  | idx, l :: ls =>
    match processLineTrim idx l with
    | .skip => runRowsTrim (idx + 1) ls
    | .fault => ([], true)
    | .emit ex =>
      let r := runRowsTrim (idx + 1) ls
      ((idx, ex) :: r.1, r.2)

/-- `iterate_examples` as the spec words it, stripping trailing
whitespace only. -/
def iterate_examples_trim (lines : List Line) : List (Nat × Example) × Bool :=
  runRowsTrim 0 lines

/-- Sample file: a header row and one well-formed consensus row with
seven tab-separated fields. -/
def consensusFile : List Line :=
  ["header".toList, "entailment\ta\tb\tc\td\tp\tq".toList]

/-- Sample file: a header row and one well-formed row whose first field
is the consensus sentinel. -/
def dashFile : List Line :=
  ["header".toList, "-\ta\tb\tc\td\tp\tq".toList]

/-- Sample file: a header row and one well-formed row whose first field
is not one of the three class names. -/
def rawLabelFile : List Line :=
  ["header".toList, "banana\ta\tb\tc\td\tp\tq".toList]

/-- Sample file: a header row and one sentinel row with a single field,
hence fewer than seven fields. -/
def shortDashFile : List Line :=
  ["header".toList, "-".toList]

/-- Sample file: a header row and one malformed row with two fields. -/
def shortRowFile : List Line :=
  ["header".toList, "a\tb".toList]

/-- Sample file: a header row and a sentinel row preceded by a leading
tab character. -/
def leadingTabFile : List Line :=
  ["header".toList, '\t' :: "-\ta\tb\tc\td\tp\tq".toList]

end MultiNLI

namespace MultiNLI

theorem splitTab_ne_nil (l : Line) : splitTab l ≠ [] := by
  induction l with
  | nil => simp [splitTab]
  | cons c cs ih =>
    simp only [splitTab]
    split
    · simp
    · cases h : splitTab cs with
      | nil => simp
      | cons f fs => simp

theorem runRows_lower_bound (ls : List Line) (idx : Nat) :
    ∀ p ∈ (runRows idx ls).1, idx ≤ p.1 := by
  induction ls generalizing idx with
  | nil => simp [runRows]
  | cons l ls ih =>
    intro p hp
    simp only [runRows] at hp
    cases h : processLine idx l with
    | skip =>
      rw [h] at hp
      exact Nat.le_of_succ_le (ih (idx + 1) p hp)
    | fault => rw [h] at hp; simp at hp
    | emit ex =>
      rw [h] at hp
      simp only [List.mem_cons] at hp
      rcases hp with rfl | hp
      · exact Nat.le_refl idx
      · exact Nat.le_of_succ_le (ih (idx + 1) p hp)

theorem runRows_mem (ls : List Line) (idx : Nat) (p : Nat × Example)
    (hp : p ∈ (runRows idx ls).1) :
    ∃ j, ∃ h : j < ls.length, p.1 = idx + j ∧
      processLine p.1 ls[j] = .emit p.2 := by
  induction ls generalizing idx with
  | nil => simp [runRows] at hp
  | cons l ls ih =>
    simp only [runRows] at hp
    cases h : processLine idx l with
    | skip =>
      rw [h] at hp
      obtain ⟨j, hj, heq, hproc⟩ := ih (idx + 1) hp
      refine ⟨j + 1, Nat.succ_lt_succ hj, by omega, ?_⟩
      simpa using hproc
    | fault => rw [h] at hp; simp at hp
    | emit ex =>
      rw [h] at hp
      simp only [List.mem_cons] at hp
      rcases hp with rfl | hp
      · exact ⟨0, Nat.succ_pos _, by simp, by simpa using h⟩
      · obtain ⟨j, hj, heq, hproc⟩ := ih (idx + 1) hp
        refine ⟨j + 1, Nat.succ_lt_succ hj, by omega, ?_⟩
        simpa using hproc

theorem runRows_no_fault (ls : List Line) (idx : Nat)
    (hnf : (runRows idx ls).2 = false) :
    ∀ j, ∀ h : j < ls.length, processLine (idx + j) ls[j] ≠ .fault := by
  induction ls generalizing idx with
  | nil => simp
  | cons l ls ih =>
    intro j hj
    simp only [runRows] at hnf
    cases h : processLine idx l with
    | skip =>
      rw [h] at hnf
      cases j with
      | zero => simp [h]
      | succ j =>
        have h2 : j < ls.length := Nat.lt_of_succ_lt_succ hj
        have hx := ih (idx + 1) hnf j h2
        have heq : idx + 1 + j = idx + (j + 1) := by omega
        rw [heq] at hx
        simpa using hx
    | fault => rw [h] at hnf; simp at hnf
    | emit ex =>
      rw [h] at hnf
      cases j with
      | zero => simp [h]
      | succ j =>
        have h2 : j < ls.length := Nat.lt_of_succ_lt_succ hj
        have hx := ih (idx + 1) hnf j h2
        have heq : idx + 1 + j = idx + (j + 1) := by omega
        rw [heq] at hx
        simpa using hx

theorem runRows_filter_lt (ls : List Line) (idx i : Nat) (hi : i < idx) :
    (runRows idx ls).1.filter (fun p => p.1 == i) = [] := by
  rw [List.filter_eq_nil_iff]
  intro p hp
  have := runRows_lower_bound ls idx p hp
  simp only [beq_iff_eq]
  omega

theorem runRows_filter (ls : List Line) (idx j : Nat) (hj : j < ls.length)
    (hnf : (runRows idx ls).2 = false) :
    (runRows idx ls).1.filter (fun p => p.1 == idx + j) =
      (match processLine (idx + j) ls[j] with
       | .emit ex => [(idx + j, ex)]
       | _ => []) := by
  induction ls generalizing idx j with
  | nil => simp at hj
  | cons l ls ih =>
    simp only [runRows] at hnf ⊢
    cases h : processLine idx l with
    | skip =>
      rw [h] at hnf
      cases j with
      | zero => simpa [h] using runRows_filter_lt ls (idx + 1) idx (by omega)
      | succ j =>
        have h2 : j < ls.length := Nat.lt_of_succ_lt_succ hj
        have hx := ih (idx + 1) j h2 hnf
        have heq : idx + 1 + j = idx + (j + 1) := by omega
        rw [heq] at hx
        simpa using hx
    | fault => rw [h] at hnf; simp at hnf
    | emit ex =>
      rw [h] at hnf
      cases j with
      | zero =>
        simp only [List.getElem_cons_zero, Nat.add_zero, h, List.filter_cons]
        simpa using runRows_filter_lt ls (idx + 1) idx (by omega)
      | succ j =>
        have h2 : j < ls.length := Nat.lt_of_succ_lt_succ hj
        have hx := ih (idx + 1) j h2 hnf
        have heq : idx + 1 + j = idx + (j + 1) := by omega
        rw [heq] at hx
        simp only [List.getElem_cons_succ, List.filter_cons]
        have hne : ((idx, ex).1 == idx + (j + 1)) = false := by
          simp only [beq_eq_false_iff_ne, ne_eq]
          omega
        rw [hne]
        simpa using hx

theorem runRows_fault (ls : List Line) (idx j : Nat) (hj : j < ls.length)
    (hbefore : ∀ k, ∀ hk : k < j, processLine (idx + k) ls[k] ≠ .fault)
    (hf : processLine (idx + j) ls[j] = .fault) :
    (runRows idx ls).2 = true ∧ ∀ p ∈ (runRows idx ls).1, p.1 < idx + j := by
  induction ls generalizing idx j with
  | nil => simp at hj
  | cons l ls ih =>
    cases j with
    | zero =>
      simp only [List.getElem_cons_zero, Nat.add_zero] at hf
      simp [runRows, hf]
    | succ j =>
      have h2 : j < ls.length := Nat.lt_of_succ_lt_succ hj
      have hnotf : processLine idx l ≠ .fault := by
        have := hbefore 0 (Nat.succ_pos j)
        simpa using this
      have hbefore2 : ∀ k, ∀ hk : k < j, processLine (idx + 1 + k) ls[k] ≠ .fault := by
        intro k hk
        have := hbefore (k + 1) (Nat.succ_lt_succ hk)
        have heq : idx + (k + 1) = idx + 1 + k := by omega
        rw [heq] at this
        simpa using this
      have hf2 : processLine (idx + 1 + j) ls[j] = .fault := by
        have heq : idx + 1 + j = idx + (j + 1) := by omega
        rw [heq]
        simpa using hf
      obtain ⟨hsnd, hmem⟩ := ih (idx + 1) j h2 hbefore2 hf2
      simp only [runRows]
      cases h : processLine idx l with
      | skip =>
        refine ⟨hsnd, ?_⟩
        intro p hp
        have := hmem p hp
        omega
      | fault => exact absurd h hnotf
      | emit ex =>
        refine ⟨hsnd, ?_⟩
        intro p hp
        simp only [List.mem_cons] at hp
        rcases hp with rfl | hp
        · simp
        · have := hmem p hp
          omega

theorem processLine_emit_inv (idx : Nat) (l : Line) (ex : Example)
    (h : processLine idx l = .emit ex) :
    idx ≠ 0 ∧ (splitTab (pyStrip l)).getD 0 [] ≠ ['-'] ∧
      7 ≤ (splitTab (pyStrip l)).length ∧
      ex = ⟨(splitTab (pyStrip l)).getD 5 [], (splitTab (pyStrip l)).getD 6 [],
        (splitTab (pyStrip l)).getD 0 []⟩ := by
  simp only [processLine] at h
  split_ifs at h with h0 h1 h2
  cases h
  exact ⟨h0, h1, h2, rfl⟩

theorem processLine_eq_emit (idx : Nat) (l : Line) (h0 : idx ≠ 0)
    (hne : (splitTab (pyStrip l)).getD 0 [] ≠ ['-'])
    (hnf : processLine idx l ≠ .fault) :
    processLine idx l = .emit ⟨(splitTab (pyStrip l)).getD 5 [],
      (splitTab (pyStrip l)).getD 6 [], (splitTab (pyStrip l)).getD 0 []⟩ := by
  simp only [processLine] at hnf ⊢
  split_ifs at hnf ⊢ with hi hd
  · exact absurd hi h0
  · rfl
  · exact absurd rfl hnf

theorem pyStrip_cons_ws (l : Line) (c : Char) (hc : isPyWS c = true) :
    pyStrip (c :: l) = pyStrip l := by
  simp [pyStrip, List.dropWhile_cons, hc]

theorem pyStrip_append_ws (l : Line) (c : Char) (hc : isPyWS c = true) :
    pyStrip (l ++ [c]) = pyStrip l := by
  simp only [pyStrip, List.dropWhile_append]
  by_cases he : (l.dropWhile isPyWS).isEmpty = true
  · rw [if_pos he]
    rw [List.isEmpty_iff] at he
    rw [he, List.rdropWhile_nil]
    simp [List.dropWhile_cons, hc]
  · rw [if_neg he]
    exact List.rdropWhile_concat_pos isPyWS _ c hc

theorem pathJoin_pathJoin (r a b : Line) (ha0 : a ≠ [])
    (ha1 : a.head? ≠ some '/') (ha2 : a.getLast? ≠ some '/')
    (hb : b.head? ≠ some '/') :
    pathJoin (pathJoin r a) b = pathJoin r (a ++ '/' :: b) := by
  have hhead : (a ++ '/' :: b).head? = a.head? := List.head?_append_of_ne_nil a ha0
  by_cases hr : r = [] ∨ r.getLast? = some '/'
  · have h1 : pathJoin r a = r ++ a := by
      simp only [pathJoin]
      rw [if_neg ha1, if_pos hr]
    have h2 : pathJoin r (a ++ '/' :: b) = r ++ (a ++ '/' :: b) := by
      simp only [pathJoin]
      rw [hhead, if_neg ha1, if_pos hr]
    rw [h1, h2]
    have hne : r ++ a ≠ [] := List.append_ne_nil_of_right_ne_nil r ha0
    have hlast : (r ++ a).getLast? = a.getLast? := List.getLast?_append_of_ne_nil r ha0
    have hcond : ¬(r ++ a = [] ∨ (r ++ a).getLast? = some '/') := by
      rintro (h | h)
      · exact hne h
      · rw [hlast] at h
        exact ha2 h
    simp only [pathJoin]
    rw [if_neg hb, if_neg hcond, List.append_assoc]
  · have h1 : pathJoin r a = r ++ '/' :: a := by
      simp only [pathJoin]
      rw [if_neg ha1, if_neg hr]
    have h2 : pathJoin r (a ++ '/' :: b) = r ++ '/' :: (a ++ '/' :: b) := by
      simp only [pathJoin]
      rw [hhead, if_neg ha1, if_neg hr]
    rw [h1, h2]
    have hne : r ++ '/' :: a ≠ [] := by simp
    have hlast : (r ++ '/' :: a).getLast? = a.getLast? := by
      rw [List.getLast?_append_cons]
      exact List.getLast?_append_of_ne_nil ['/'] ha0
    have hcond : ¬(r ++ '/' :: a = [] ∨ (r ++ '/' :: a).getLast? = some '/') := by
      rintro (h | h)
      · exact hne h
      · rw [hlast] at h
        exact ha2 h
    simp only [pathJoin]
    rw [if_neg hb, if_neg hcond]
    simp

/-- C1: for every input file whose iteration completes without a
malformed-row fault, every data row (index at least 1) whose first
tab-separated field is not the sentinel `"-"` contributes exactly the
pair `(row_index, {premise := field 5, hypothesis := field 6,
label := field 0})` to the output of `iterate_examples`, at the row's
0-based physical line number. -/
theorem C1_row_emission (lines : List Line)
    (hnf : (iterate_examples lines).2 = false)
    (i : Nat) (h1 : 1 ≤ i) (h2 : i < lines.length)
    (hne : (splitTab (pyStrip lines[i])).getD 0 [] ≠ ['-']) :
    (iterate_examples lines).1.filter (fun p => p.1 == i) =
      [(i, ⟨(splitTab (pyStrip lines[i])).getD 5 [],
            (splitTab (pyStrip lines[i])).getD 6 [],
            (splitTab (pyStrip lines[i])).getD 0 []⟩)] := by
  have hnf2 : (runRows 0 lines).2 = false := hnf
  have hfil := runRows_filter lines 0 i h2 hnf2
  simp only [Nat.zero_add] at hfil
  have hnof := runRows_no_fault lines 0 hnf2 i h2
  simp only [Nat.zero_add] at hnof
  have hemit := processLine_eq_emit i lines[i] (by omega) hne hnof
  simp only [iterate_examples]
  rw [hfil, hemit]

/-- C1 witness: on a file with a header and one well-formed
entailment row, `iterate_examples` emits that row at index 1. -/
theorem C1_row_emission_witness :
    (iterate_examples consensusFile).1.filter (fun p => p.1 == 1) =
      [(1, ⟨"p".toList, "q".toList, "entailment".toList⟩)] := by
  have h := C1_row_emission consensusFile (by decide) 1 (by decide) (by decide) (by decide)
  exact h.trans (by decide)

/-- C2: a data row whose first tab-separated field is the sentinel
`"-"` is never emitted: no pair with that row index appears in the
output of `iterate_examples`. -/
theorem C2_dash_row_not_emitted (lines : List Line) (i : Nat)
    (h2 : i < lines.length)
    (hdash : (splitTab (pyStrip lines[i])).getD 0 [] = ['-'])
    (ex : Example) : (i, ex) ∉ (iterate_examples lines).1 := by
  intro hmem
  have hmem2 : (i, ex) ∈ (runRows 0 lines).1 := hmem
  obtain ⟨j, hj, heq, hproc⟩ := runRows_mem lines 0 (i, ex) hmem2
  simp only [Nat.zero_add] at heq
  have hij : i = j := heq
  subst hij
  obtain ⟨-, hne, -, -⟩ := processLine_emit_inv _ _ _ hproc
  exact hne hdash

/-- C2 witness: the sentinel row of `dashFile` is not emitted. -/
theorem C2_dash_row_not_emitted_witness :
    ((1 : Nat), (⟨"p".toList, "q".toList, "-".toList⟩ : Example)) ∉
      (iterate_examples dashFile).1 :=
  C2_dash_row_not_emitted dashFile 1 (by decide) (by decide)
    ⟨"p".toList, "q".toList, "-".toList⟩

/-- C3: the header row is unconditionally skipped: no pair with row
index 0 ever appears in the output of `iterate_examples`, whatever the
file contents. -/
theorem C3_header_never_emitted (lines : List Line) :
    (iterate_examples lines).1.filter (fun p => p.1 == 0) = [] := by
  rw [List.filter_eq_nil_iff]
  intro p hp
  have hp2 : p ∈ (runRows 0 lines).1 := hp
  obtain ⟨j, hj, heq, hproc⟩ := runRows_mem lines 0 p hp2
  simp only [Nat.zero_add] at heq
  simp only [beq_iff_eq]
  intro h0
  rw [h0] at hproc
  simp [processLine] at hproc

/-- C4 counterexample: `iterate_examples` performs no label
validation; a row whose first field is `"banana"` is emitted with that
label, which is outside the closed three-value set. -/
theorem C4_counterexample :
    ∃ p ∈ (iterate_examples rawLabelFile).1, validLabel p.2.label = false := by
  decide

/-- C4 (amended): every emitted Example carries, as its label, the raw
first tab-separated field of its source row, and that field is never
the sentinel `"-"`; membership in the closed three-value set is
enforced by the downstream `ClassLabel` feature, not here. -/
theorem C4_label_raw_passthrough (lines : List Line) (p : Nat × Example)
    (hp : p ∈ (iterate_examples lines).1) :
    ∃ h : p.1 < lines.length,
      p.2.label = (splitTab (pyStrip lines[p.1])).getD 0 [] ∧
        p.2.label ≠ ['-'] := by
  have hp2 : p ∈ (runRows 0 lines).1 := hp
  obtain ⟨j, hj, heq, hproc⟩ := runRows_mem lines 0 p hp2
  simp only [Nat.zero_add] at heq
  subst heq
  obtain ⟨-, hne, -, hex⟩ := processLine_emit_inv _ _ _ hproc
  refine ⟨hj, ?_, ?_⟩
  · rw [hex]
  · rw [hex]
    exact hne

/-- C4 witness: the emitted pair of `consensusFile` carries the raw
label `"entailment"`, which is not the sentinel. -/
theorem C4_label_raw_passthrough_witness :
    ∃ h : (1 : Nat) < consensusFile.length,
      ("entailment".toList : Line) =
        (splitTab (pyStrip consensusFile[1])).getD 0 [] ∧
      ("entailment".toList : Line) ≠ ['-'] :=
  C4_label_raw_passthrough consensusFile
    (1, ⟨"p".toList, "q".toList, "entailment".toList⟩) (by decide)

/-- C5 counterexample: a data row with fewer than 7 tab-separated
fields does not always fault: the one-field sentinel row `"-"` is
skipped and iteration ends without any fault. -/
theorem C5_counterexample :
    iterate_examples shortDashFile = ([], false) ∧
      (splitTab (pyStrip "-".toList)).length < 7 := by
  decide

/-- C5 (amended): a data row with fewer than 7 tab-separated fields
whose first field is not the sentinel `"-"` faults, provided no
earlier row faulted first: the iteration reports a malformed-row
fault and every emitted pair has a row index below the faulting row. -/
theorem C5_short_row_fault (lines : List Line) (i : Nat) (h1 : 1 ≤ i)
    (h2 : i < lines.length)
    (hshort : (splitTab (pyStrip lines[i])).length < 7)
    (hne : (splitTab (pyStrip lines[i])).getD 0 [] ≠ ['-'])
    (hbefore : ∀ k, ∀ hk : k < i, processLine k lines[k] ≠ RowResult.fault) :
    (iterate_examples lines).2 = true ∧
      ∀ p ∈ (iterate_examples lines).1, p.1 < i := by
  have hf : processLine i lines[i] = .fault := by
    simp only [processLine]
    rw [if_neg (by omega : ¬i = 0), if_neg hne,
      if_neg (by omega : ¬7 ≤ (splitTab (pyStrip lines[i])).length)]
  have hb2 : ∀ k, ∀ hk : k < i, processLine (0 + k) lines[k] ≠ RowResult.fault := by
    intro k hk
    simpa using hbefore k hk
  have hres := runRows_fault lines 0 i h2 hb2 (by simpa using hf)
  simpa [iterate_examples] using hres

/-- C5 witness: the two-field row `"a\tb"` at index 1 faults and
nothing is emitted. -/
theorem C5_short_row_fault_witness :
    (iterate_examples shortRowFile).2 = true ∧
      ∀ p ∈ (iterate_examples shortRowFile).1, p.1 < 1 :=
  C5_short_row_fault shortRowFile 1 (by decide) (by decide) (by decide)
    (by decide) (by decide)

/-- C6: the split resolution of `_split_generators` equals, for every
download root, the pure concatenation of the root with the three fixed
relative paths, in the order train, validation_matched,
validation_mismatched. -/
theorem C6_resolve_splits_paths (root : Line) :
    resolve_splits root =
      [⟨"train".toList,
        pathJoin root "multinli_1.0/multinli_1.0_train.txt".toList⟩,
       ⟨"validation_matched".toList,
        pathJoin root "multinli_1.0/multinli_1.0_dev_matched.txt".toList⟩,
       ⟨"validation_mismatched".toList,
        pathJoin root "multinli_1.0/multinli_1.0_dev_mismatched.txt".toList⟩] := by
  have hj1 := pathJoin_pathJoin root "multinli_1.0".toList
    "multinli_1.0_train.txt".toList (by decide) (by decide) (by decide) (by decide)
  have hj2 := pathJoin_pathJoin root "multinli_1.0".toList
    "multinli_1.0_dev_matched.txt".toList (by decide) (by decide) (by decide) (by decide)
  have hj3 := pathJoin_pathJoin root "multinli_1.0".toList
    "multinli_1.0_dev_mismatched.txt".toList (by decide) (by decide) (by decide) (by decide)
  have e1 : "multinli_1.0".toList ++ '/' :: "multinli_1.0_train.txt".toList =
      "multinli_1.0/multinli_1.0_train.txt".toList := by decide
  have e2 : "multinli_1.0".toList ++ '/' :: "multinli_1.0_dev_matched.txt".toList =
      "multinli_1.0/multinli_1.0_dev_matched.txt".toList := by decide
  have e3 : "multinli_1.0".toList ++ '/' :: "multinli_1.0_dev_mismatched.txt".toList =
      "multinli_1.0/multinli_1.0_dev_mismatched.txt".toList := by decide
  simp only [resolve_splits]
  rw [hj1, hj2, hj3, e1, e2, e3]

/-- C7 counterexample: a leading tab is not preserved: the source
strips whitespace from both ends, so a sentinel row with a leading tab
is skipped, whereas under the trailing-only strip that the claim
describes the same row would be emitted with a shifted field layout. -/
theorem C7_counterexample :
    iterate_examples leadingTabFile = ([], false) ∧
      iterate_examples_trim leadingTabFile =
        ([(1, ⟨"d".toList, "p".toList, []⟩)], false) := by
  decide

/-- C7 (amended): each line is stripped of both leading and trailing
whitespace before being split on tabs: adding a whitespace character
at either end of a line does not change how the row is processed. -/
theorem C7_strip_both_ends (idx : Nat) (l : Line) (c : Char)
    (hc : isPyWS c = true) :
    processLine idx (c :: l) = processLine idx l ∧
      processLine idx (l ++ [c]) = processLine idx l := by
  constructor
  · simp only [processLine, pyStrip_cons_ws l c hc]
  · simp only [processLine, pyStrip_append_ws l c hc]

/-- C7 witness: a space at either end of a row leaves its processing
unchanged. -/
theorem C7_strip_both_ends_witness :
    processLine 1 (' ' :: "x".toList) = processLine 1 "x".toList ∧
      processLine 1 ("x".toList ++ [' ']) = processLine 1 "x".toList :=
  C7_strip_both_ends 1 "x".toList ' ' (by decide)

/-- C8: row generation is a deterministic pure function of the file
contents: two iterations over the same unchanged lines produce the
identical ordered sequence of pairs (and the same fault flag). -/
theorem C8_deterministic (l1 l2 : List Line) (h : l1 = l2) :
    iterate_examples l1 = iterate_examples l2 := by
  rw [h]

/-- C8 witness: iterating `consensusFile` twice gives equal results. -/
theorem C8_deterministic_witness :
    iterate_examples consensusFile = iterate_examples consensusFile :=
  C8_deterministic consensusFile consensusFile rfl

/-- C9: the vocabulary hook yields, for each emitted example in
order, exactly the premise and hypothesis joined by a single space,
and nothing for skipped rows. -/
theorem C9_vocab_strings (lines : List Line) :
    vocab_text_gen lines =
      (iterate_examples lines).1.map
        (fun p => p.2.premise ++ ' ' :: p.2.hypothesis) := by
  have hjoin : ∀ a b : Line, pyJoin [' '] [a, b] = a ++ ' ' :: b := by
    intro a b
    simp [pyJoin]
  simp [vocab_text_gen, hjoin]

/-- C10: a row whose first field is the sentinel `"-"` is skipped
without any fault, even with fewer than 7 fields: the consensus check
precedes the accesses to fields 5 and 6, and field 0 always exists
because splitting on tab yields at least one field. -/
theorem C10_dash_short_row_skip (idx : Nat) (line : Line)
    (hdash : (splitTab (pyStrip line)).getD 0 [] = ['-']) :
    processLine idx line = .skip ∧ splitTab (pyStrip line) ≠ [] := by
  refine ⟨?_, splitTab_ne_nil _⟩
  by_cases h0 : idx = 0
  · simp [processLine, h0]
  · have hdash2 : (splitTab (pyStrip line))[0]?.getD [] = ['-'] := by
      simpa using hdash
    simp [processLine, h0, hdash2]

/-- C10 witness: the one-field sentinel row `"-"` is skipped without
fault. -/
theorem C10_dash_short_row_skip_witness :
    processLine 1 "-".toList = .skip ∧ splitTab (pyStrip "-".toList) ≠ [] :=
  C10_dash_short_row_skip 1 "-".toList (by decide)

end MultiNLI
